import Mathlib

/-!
# Verification of the dbus keyring cookie store (`dbus/dbus-keyring.c`)

A shallow embedding of the key-lifecycle and persistence engine of the
DBus cookie keyring: the on-disk line codec, the expiry filter, advisory
lock acquisition with stale-lock recovery, collision-free ID generation,
reload, and best-key selection.

File contents are modelled as lists of byte values (`List Nat`, each
element intended `< 256`); secrets are likewise byte lists.  Machine
integers (`dbus_int32_t`, `long`) are modelled as unbounded `Int`, with
32-bit wraparound made explicit (`wrap32`) at the one place the C code
performs 32-bit arithmetic (random-ID construction in `add_new_key`).

External fallible primitives (file create/delete/read/save, random byte
generation, allocation) are modelled by environment records that fix the
outcome of each call, so that every control path of the C code is a
reachable branch of the Lean functions.
-/

namespace DBusKeyring

/-- `NEW_KEY_TIMEOUT_SECONDS` from dbus-keyring.c: maximum age of a key
before a new key is created for challenges. -/
def NEW_KEY_TIMEOUT_SECONDS : Int := 60 * 5

/-- `EXPIRE_KEYS_TIMEOUT_SECONDS` from dbus-keyring.c: age after which a
key is dropped from the secrets file. -/
def EXPIRE_KEYS_TIMEOUT_SECONDS : Int := NEW_KEY_TIMEOUT_SECONDS + 60 * 2

/-- `MAX_TIME_TRAVEL_SECONDS` from dbus-keyring.c: maximum amount of time
a key can be in the future. -/
def MAX_TIME_TRAVEL_SECONDS : Int := 60 * 5

/-- `_DBUS_INT_MAX`: the largest 32-bit signed integer. -/
def DBUS_INT_MAX : Int := 2147483647

/-- A `DBusKey` record from dbus-keyring.c: identifier, creation unix
timestamp and the secret cookie bytes. -/
structure DBusKey where
  id : Int
  creation_time : Int
  secret : List Nat
deriving Repr, DecidableEq

/-- The `DBusKeyring` aggregate.  Only the key list participates in the
modelled operations; the path strings (`directory`, `filename`,
`filename_lock`) and the reference count do not affect any verified
behaviour and are omitted.  `n_keys` is the length of `keys`. -/
structure Keyring where
  keys : List DBusKey
deriving Repr, DecidableEq

/-! ## Byte-level helpers of the codec

These correspond to DBusString utilities (`_dbus_string_parse_int`,
`_dbus_string_skip_blank`, `_dbus_string_pop_line`,
`_dbus_string_hex_encode`, `_dbus_string_hex_decode`,
`_dbus_string_validate_ascii`, `_dbus_string_append_int`) that live in
dbus-string.c / dbus-sysdeps.c, outside the sources at hand, and are
therefore modelled from the spec's description of the line format. -/

/-- Byte is a decimal digit (`'0'`..`'9'`). -/
def isDigitB (b : Nat) : Bool := decide (48 ≤ b ∧ b ≤ 57)

/-- Byte is a blank (space or tab), as skipped by the field separator
handling. -/
def isBlankB (b : Nat) : Bool := decide (b = 32 ∨ b = 9)

/-- Accumulate a decimal numeral, most significant digit first. -/
def digitsToNat (ds : List Nat) : Nat :=
  ds.foldl (fun a b => a * 10 + (b - 48)) 0

/-- Modelled from the spec: the integer-parsing half of
`_dbus_string_parse_int` (missing from the sources at hand); parses a
maximal run of decimal digits.  Fails when no digit is present.
Returns the value and the unconsumed suffix. -/
def parseNat (s : List Nat) : Option (Nat × List Nat) :=
  if s.takeWhile isDigitB = [] then none
  else some (digitsToNat (s.takeWhile isDigitB), s.dropWhile isDigitB)

/-- Modelled from the spec: `_dbus_string_parse_int` (missing from the
sources at hand) parses an optional minus sign followed by decimal
digits, failing when no digits follow the start position. -/
def parseInt (s : List Nat) : Option (Int × List Nat) :=
  match s with
  | [] => none
  | b :: rest =>
    if b = 45 then (parseNat rest).map (fun p => (-(p.1 : Int), p.2))
    else (parseNat (b :: rest)).map (fun p => ((p.1 : Int), p.2))

/-- Modelled from the spec: `_dbus_string_skip_blank` (missing from the
sources at hand) advances past blank characters. -/
def skipBlank (s : List Nat) : List Nat := s.dropWhile isBlankB

/-- Modelled from the spec: `_dbus_string_pop_line` (missing from the
sources at hand) repeatedly pops newline-terminated lines, a final
unterminated segment counting as a line; on empty content there is no
line.  `splitLines` collects the popped lines in order. -/
def splitLines : List Nat → List (List Nat)
  | [] => []
  | b :: rest =>
    if b = 10 then [] :: splitLines rest
    else
      match splitLines rest with
      | [] => [[b]]
      | l :: ls => (b :: l) :: ls

/-- Modelled from the spec: `_dbus_string_validate_ascii` (missing from
the sources at hand) accepts pure 7-bit ASCII with no embedded NUL. -/
def asciiOnly (s : List Nat) : Bool := s.all (fun b => decide (b ≠ 0 ∧ b < 128))

/-- Lower-case hex digit for a nibble, as produced by
`_dbus_string_hex_encode`. -/
def hexDigitByte (d : Nat) : Nat := if d < 10 then 48 + d else 87 + d

/-- Modelled from the spec: `_dbus_string_hex_encode` (missing from the
sources at hand) writes two lower-case hex digits per byte. -/
def hexEncode : List Nat → List Nat
  | [] => []
  | b :: rest => hexDigitByte (b / 16) :: hexDigitByte (b % 16) :: hexEncode rest

/-- Value of one hex digit byte (accepting both cases), `none` on a
non-hex byte. -/
def hexVal (b : Nat) : Option Nat :=
  if 48 ≤ b ∧ b ≤ 57 then some (b - 48)
  else if 97 ≤ b ∧ b ≤ 102 then some (b - 87)
  else if 65 ≤ b ∧ b ≤ 70 then some (b - 55)
  else none

/-- Modelled from the spec: `_dbus_string_hex_decode` (missing from the
sources at hand) interprets pairs of hex digits as raw bytes and fails
on malformed input. -/
def hexDecode : List Nat → Option (List Nat)
  | [] => some []
  | [_] => none
  | a :: b :: rest =>
    match hexVal a, hexVal b, hexDecode rest with
    | some hi, some lo, some tail => some ((hi * 16 + lo) :: tail)
    | _, _, _ => none

/-- Little-endian digit bytes of `n`, with `fuel` bounding the recursion
(`fuel ≥ n` suffices). -/
def natDigitsRevAux : Nat → Nat → List Nat
  | _, 0 => []
  | n, fuel + 1 => if n = 0 then [] else (48 + n % 10) :: natDigitsRevAux (n / 10) fuel

/-- Decimal digit bytes of a natural number, most significant first. -/
def natDigits (n : Nat) : List Nat :=
  if n = 0 then [48] else (natDigitsRevAux n n).reverse

/-- Modelled from the spec: `_dbus_string_append_int` (missing from the
sources at hand) appends the decimal rendering of a (signed) integer. -/
def intDigits (z : Int) : List Nat :=
  if z < 0 then 45 :: natDigits z.natAbs else natDigits z.natAbs

/-! ## The key-file codec (`_dbus_keyring_reload` decode loop, encode loop) -/

/-- One record line as written by the encoder in `_dbus_keyring_reload`:
decimal ID, space, decimal creation time, space, hex-encoded secret. -/
def keyLine (id ts : Int) (secret : List Nat) : List Nat :=
  intDigits id ++ (32 :: (intDigits ts ++ (32 :: hexEncode secret)))

/-- Serialization of one key, newline terminated (encode loop of
`_dbus_keyring_reload`, lines 546–578). -/
def encodeKey (k : DBusKey) : List Nat :=
  keyLine k.id k.creation_time k.secret ++ [10]

/-- Serialization of the whole key list, in list order. -/
def encodeKeys : List DBusKey → List Nat
  | [] => []
  | k :: ks => encodeKey k ++ encodeKeys ks

/-- The per-line parsing and admission filter of the decode loop in
`_dbus_keyring_reload` (lines 448–497): parse the ID (skipping the line
unless it is a parseable integer within `[0, _DBUS_INT_MAX]`), skip
blanks, parse the timestamp (skipping the line on failure), drop the
line when the timestamp is negative, more than
`MAX_TIME_TRAVEL_SECONDS` ahead of `now`, or more than
`EXPIRE_KEYS_TIMEOUT_SECONDS` behind `now`, skip blanks, and skip the
line when no secret field remains.  Returns the ID, timestamp, and the
raw (still hex-encoded) secret field. -/
def parseLine (now : Int) (line : List Nat) : Option (Int × Int × List Nat) :=
  match parseInt line with
  | none => none
  | some (val, rest) =>
    if val > DBUS_INT_MAX ∨ val < 0 then none
    else
      match parseInt (skipBlank rest) with
      | none => none
      | some (timestamp, rest2) =>
        if timestamp < 0 ∨ now + MAX_TIME_TRAVEL_SECONDS < timestamp ∨
            now - EXPIRE_KEYS_TIMEOUT_SECONDS > timestamp then none
        else
          let rest3 := skipBlank rest2
          if rest3 = [] then none else some (val, timestamp, rest3)

/-- Errors surfaced by the modelled operations, mirroring the
`DBusError` codes set in dbus-keyring.c. -/
inductive KErr where
  | noMemory
  | lockFailed
  | saveFailed
  | noRecentKey
deriving Repr, DecidableEq

/-- The decode loop of `_dbus_keyring_reload` (lines 448–530) over a
list of popped lines.  `allocs n` fixes the outcome of the allocation
(`dbus_realloc` + `_dbus_string_init`) performed when accepting the
`n`-th key; an allocation failure, like a hex-decode failure, aborts
the whole reload (`goto out`), whereas a line rejected by `parseLine`
is merely skipped. -/
def decodeLinesF (allocs : Nat → Bool) (now : Int) :
    List (List Nat) → Nat → Except KErr (List DBusKey)
  | [], _ => .ok []
  | l :: ls, n =>
    match parseLine now l with
    | none => decodeLinesF allocs now ls n
    | some (id, ts, hx) =>
      if allocs n then
        match hexDecode hx with
        | none => .error .noMemory
        | some secret => (decodeLinesF allocs now ls (n + 1)).map (⟨id, ts, secret⟩ :: ·)
      else .error .noMemory

/-- Decoding a whole buffer with all allocations succeeding: pop lines,
then run the decode loop. -/
def decodeLines (now : Int) (contents : List Nat) : Except KErr (List DBusKey) :=
  decodeLinesF (fun _ => true) now (splitLines contents) 0

/-! ## New-key generation (`add_new_key`) -/

/-- Reduce an integer to its 32-bit two's-complement representative in
`[-2^31, 2^31)`. -/
def wrap32 (z : Int) : Int :=
  let m := z % 4294967296
  if m < 2147483648 then m else m - 4294967296

/-- `id = s[0] | (s[1] << 8) | (s[2] << 16) | (s[3] << 24)` from
`add_new_key` (line 298): assemble four random bytes into a 32-bit
signed integer. -/
def bytesToRawId (s0 s1 s2 s3 : Nat) : Int :=
  wrap32 ((s0 : Int) + s1 * 256 + s2 * 65536 + s3 * 16777216)

/-- `if (id < 0) id = - id;` from `add_new_key` (lines 299–300), the
negation performed in 32-bit arithmetic. -/
def forceNonneg (id : Int) : Int := if id < 0 then wrap32 (-id) else id

/-- The candidate key ID produced from one 4-byte random draw. -/
def drawId (d : Nat × Nat × Nat × Nat) : Int :=
  forceNonneg (bytesToRawId d.1 d.2.1 d.2.2.1 d.2.2.2)

/-- `find_key_by_id` from dbus-keyring.c (lines 242–259): first key in
the list carrying the given ID. -/
def find_key_by_id (keys : List DBusKey) (id : Int) : Option DBusKey :=
  keys.find? (fun k => k.id = id)

/-- The retry loop of `add_new_key` (lines 287–309): take candidate IDs
from the stream of 4-byte random draws, redrawing while the ID collides
with an existing key.  An exhausted stream models a failing
`_dbus_generate_random_bytes` call (out of memory). -/
def pickId (keys : List DBusKey) : List (Nat × Nat × Nat × Nat) → Option Int
  | [] => none
  | d :: ds =>
    if (find_key_by_id keys (drawId d)).isSome then pickId keys ds
    else some (drawId d)

/-- Outcomes of the external calls made by `add_new_key`: the stream of
4-byte random draws for the ID, whether the 24-byte secret draw
succeeds and the bytes it yields, whether the
`dbus_realloc`/`_dbus_string_init`/`_dbus_string_move` allocations
succeed, and the `_dbus_get_current_time` value observed at
generation. -/
structure GenEnv where
  draws : List (Nat × Nat × Nat × Nat)
  secretOk : Bool
  allocOk : Bool
  secret : List Nat
  timestamp : Int

/-- `add_new_key` from dbus-keyring.c (lines 261–366): pick a
collision-free ID, draw the secret, grow the key array, and append the
new key stamped with the current time.  On any failure the key list is
returned unchanged inside the error (`*keys_p` is only updated on
success). -/
def add_new_key (g : GenEnv) (keys : List DBusKey) : Except KErr (List DBusKey) :=
  match pickId keys g.draws with
  | none => .error .noMemory
  | some id =>
    if g.secretOk = false then .error .noMemory
    else if g.allocOk = false then .error .noMemory
    else .ok (keys ++ [⟨id, g.timestamp, g.secret⟩])

/-! ## Advisory locking (`_dbus_keyring_lock`) -/

/-- Outcomes of the external filesystem calls made by
`_dbus_keyring_lock`: `createOk n` is the result of the `n`-th
`_dbus_create_file_exclusively` attempt (attempts `0`–`31` inside the
retry loop, attempt `32` after stale-lock deletion), and `deleteOk` is
the result of the `_dbus_delete_file` call on the presumed-stale lock
file. -/
structure LockEnv where
  createOk : Nat → Bool
  deleteOk : Bool

/-- The retry loop of `_dbus_keyring_lock` (lines 181–197): starting at
attempt `i` with `fuel` attempts remaining, `true` iff some exclusive
create succeeds before the attempts run out. -/
def lockLoop (createOk : Nat → Bool) : Nat → Nat → Bool
  | _, 0 => false
  | i, fuel + 1 => if createOk i then true else lockLoop createOk (i + 1) fuel

/-- `_dbus_keyring_lock` from dbus-keyring.c (lines 175–227): try the
exclusive create up to `MAX_LOCK_TIMEOUTS = 32` times; if all fail,
delete the presumed-stale lock file (returning failure if the delete
fails) and make exactly one further exclusive-create attempt, whose
outcome decides the result. -/
def dbus_keyring_lock (env : LockEnv) : Bool :=
  if lockLoop env.createOk 0 32 then true
  else if env.deleteOk then env.createOk 32 else false

/-! ## Reload (`_dbus_keyring_reload`) -/

/-- Outcomes of every external call a single `_dbus_keyring_reload`
invocation can make: the initial `_dbus_string_init` allocations,
the lock-file calls, the `_dbus_file_get_contents` result (`none`
models a read failure, treated as empty content), the per-key
decode-loop allocations, the `add_new_key` environment, the
serialization (`_dbus_string_append_*`/`hex_encode`) allocations, and
the `_dbus_string_save_to_file` outcome. -/
structure ReloadEnv where
  initOk : Bool
  lockEnv : LockEnv
  readResult : Option (List Nat)
  allocs : Nat → Bool
  gen : GenEnv
  serializeOk : Bool
  saveOk : Bool

/-- The contents the decode loop actually sees: a failed read leaves the
buffer empty (line 434–439), and a buffer that is not pure ASCII is
truncated to empty (lines 441–446). -/
def effectiveContents (env : ReloadEnv) : List Nat :=
  let c := env.readResult.getD []
  if asciiOnly c then c else []

/-- The decode phase of `_dbus_keyring_reload`: pop each line of the
effective contents through the parse/filter/hex-decode loop. -/
def loadKeys (env : ReloadEnv) (now : Int) : Except KErr (List DBusKey) :=
  decodeLinesF env.allocs now (splitLines (effectiveContents env)) 0

/-- Observable result of one `_dbus_keyring_reload` call: the keyring
afterwards (`keyring->keys`/`n_keys` are reassigned only on the success
path, lines 590–596), the returned value with its error, whether the
lock file was created during the call, whether it was deleted again
before returning (`out:` label, lines 598–600), and the buffer written
by `_dbus_string_save_to_file`, when a save happened. -/
structure ReloadOut where
  ring : Keyring
  result : Except KErr (List DBusKey)
  locked : Bool
  unlocked : Bool
  saved : Option (List Nat)
deriving Repr

/-- `_dbus_keyring_reload` from dbus-keyring.c (lines 382–628): init
scratch buffers, lock when `add_new`, read and decode the file, when
`add_new` generate one new key then serialize and save the full list,
unlock if locked, and commit the new list to the keyring only on
success. -/
def reloadFull (env : ReloadEnv) (kr : Keyring) (add_new : Bool) (now : Int) : ReloadOut :=
  if env.initOk = false then ⟨kr, .error .noMemory, false, false, none⟩
  else if add_new && !dbus_keyring_lock env.lockEnv then
    ⟨kr, .error .lockFailed, false, false, none⟩
  else
    match loadKeys env now with
    | .error e => ⟨kr, .error e, add_new, add_new, none⟩
    | .ok keys =>
      if add_new then
        match add_new_key env.gen keys with
        | .error e => ⟨kr, .error e, add_new, add_new, none⟩
        | .ok keys2 =>
          if env.serializeOk = false then ⟨kr, .error .noMemory, add_new, add_new, none⟩
          else if env.saveOk = false then ⟨kr, .error .saveFailed, add_new, add_new, none⟩
          else ⟨⟨keys2⟩, .ok keys2, add_new, add_new, some (encodeKeys keys2)⟩
      else ⟨⟨keys⟩, .ok keys, add_new, add_new, none⟩

/-! ## Best-key selection (`find_recent_key`, `_dbus_keyring_get_best_key`) -/

/-- `find_recent_key` from dbus-keyring.c (lines 842–865): scan the
in-memory keys in order and return the first whose creation time is
more recent than `now - NEW_KEY_TIMEOUT_SECONDS`. -/
def find_recent_key (now : Int) : List DBusKey → Option DBusKey
  | [] => none
  | k :: ks =>
    if now - NEW_KEY_TIMEOUT_SECONDS < k.creation_time then some k
    else find_recent_key now ks

/-- Observable result of one `_dbus_keyring_get_best_key` call: the
keyring afterwards, the returned key ID or error, whether a mutating
reload was performed, whether a lock file was created, and the buffer
saved to disk, if any. -/
structure BestOut where
  ring : Keyring
  result : Except KErr Int
  reloaded : Bool
  locked : Bool
  saved : Option (List Nat)
deriving Repr

/-- `_dbus_keyring_get_best_key` from dbus-keyring.c (lines 878–905):
return the first recent key's ID if one exists; otherwise perform a
mutating `reload(add_new=TRUE)` and scan again, failing when the reload
fails or still no recent key exists. -/
def get_best_key (env : ReloadEnv) (kr : Keyring) (now : Int) : BestOut :=
  match find_recent_key now kr.keys with
  | some k => ⟨kr, .ok k.id, false, false, none⟩
  | none =>
    match (reloadFull env kr true now).result with
    | .error e => ⟨(reloadFull env kr true now).ring, .error e, true,
        (reloadFull env kr true now).locked, (reloadFull env kr true now).saved⟩
    | .ok _ =>
      match find_recent_key now (reloadFull env kr true now).ring.keys with
      | some k => ⟨(reloadFull env kr true now).ring, .ok k.id, true,
          (reloadFull env kr true now).locked, (reloadFull env kr true now).saved⟩
      | none => ⟨(reloadFull env kr true now).ring, .error .noRecentKey, true,
          (reloadFull env kr true now).locked, (reloadFull env kr true now).saved⟩

/-! ## Concrete instances used in the verification -/

deriving instance DecidableEq for Except

/-- An environment in which every external call succeeds: the first
exclusive create obtains the lock, the data file is absent, every
allocation succeeds, the single random draw yields bytes `(1,0,0,0)`
(hence ID 1), the secret drawn is `[7]`, and generation is stamped at
time 1000. -/
def allOkEnv : ReloadEnv :=
  ⟨true, ⟨fun _ => true, true⟩, none, fun _ => true,
    ⟨[(1, 0, 0, 0)], true, true, [7], 1000⟩, true, true⟩

/-- `allOkEnv` with the data file containing two well-formed, in-window
lines that carry the same ID 5. -/
def dupIdEnv : ReloadEnv :=
  ⟨true, ⟨fun _ => true, true⟩, some (encodeKeys [⟨5, 1000, [171]⟩, ⟨5, 1000, [171]⟩]),
    fun _ => true, ⟨[(1, 0, 0, 0)], true, true, [7], 1000⟩, true, true⟩

/-- The bytes of the file `"1 1000 zz\n2 1000 ab\n"`: a first line whose
secret field `zz` is not valid hex, followed by a perfectly well-formed
line. -/
def badHexFile : List Nat :=
  [49, 32, 49, 48, 48, 48, 32, 122, 122, 10, 50, 32, 49, 48, 48, 48, 32, 97, 98, 10]

/-- The well-formed second line of `badHexFile` on its own
(`"2 1000 ab\n"`). -/
def goodLineFile : List Nat := [50, 32, 49, 48, 48, 48, 32, 97, 98, 10]

/-- `allOkEnv` reading `badHexFile`. -/
def badHexEnv : ReloadEnv :=
  ⟨true, ⟨fun _ => true, true⟩, some badHexFile, fun _ => true,
    ⟨[(1, 0, 0, 0)], true, true, [7], 1000⟩, true, true⟩

/-- Keys whose serialization does not decode back to them at time 1000:
an in-window key with an empty secret, an expired key, a key whose ID
exceeds `_DBUS_INT_MAX`, and a key with a negative ID. -/
def c1BadKeys : List DBusKey :=
  [⟨1, 1000, []⟩, ⟨2, 0, [171]⟩, ⟨2147483648, 1000, [171]⟩, ⟨-5, 1000, [171]⟩]

/-- Keys that are well-formed and inside the admission window at time
1000. -/
def c1GoodKeys : List DBusKey := [⟨1, 900, [0, 255]⟩, ⟨2, 1290, [7]⟩]

/-- Lock environment in which the 32 retried creates all fail, deleting
the presumed-stale lock file fails, and the final create would
succeed. -/
def staleDeleteFailsEnv : LockEnv := ⟨fun i => decide (i = 32), false⟩

/-- Lock environment in which the 32 retried creates all fail and both
the stale delete and the final create succeed. -/
def staleRecoveryEnv : LockEnv := ⟨fun i => decide (i = 32), true⟩

/-- `allOkEnv` with every lock-file create failing and the stale delete
failing too, so that lock acquisition fails. -/
def lockFailEnv : ReloadEnv :=
  ⟨true, ⟨fun _ => false, false⟩, none, fun _ => true,
    ⟨[(1, 0, 0, 0)], true, true, [7], 1000⟩, true, true⟩

/-- A keyring holding one stale key (ID 7, 400 seconds old at time
1000) and one fresh key (ID 3, 299 seconds old at time 1000). -/
def freshSecondRing : Keyring := ⟨[⟨7, 600, [1]⟩, ⟨3, 701, [2]⟩]⟩

/-! ## Lemmas about the numeral codec -/

theorem isDigitB_eq_true {b : Nat} : isDigitB b = true ↔ 48 ≤ b ∧ b ≤ 57 := by
  simp [isDigitB]

theorem takeWhile_append_not {p : Nat → Bool} :
    ∀ (ds rest : List Nat), (∀ b ∈ ds, p b = true) →
    (∀ b, rest.head? = some b → p b = false) →
    (ds ++ rest).takeWhile p = ds ∧ (ds ++ rest).dropWhile p = rest := by
  intro ds
  induction ds with
  | nil =>
    intro rest _ h2
    cases rest with
    | nil => simp
    | cons b t =>
      have hb := h2 b rfl
      simp [List.takeWhile, List.dropWhile, hb]
  | cons d ds ih =>
    intro rest h1 h2
    have hd := h1 d (by simp)
    have iht := ih rest (fun b hb => h1 b (by simp [hb])) h2
    simp [List.takeWhile, List.dropWhile, hd, iht.1, iht.2]

theorem mem_natDigitsRevAux :
    ∀ (fuel n : Nat), ∀ b ∈ natDigitsRevAux n fuel, 48 ≤ b ∧ b ≤ 57 := by
  intro fuel
  induction fuel with
  | zero => intro n b hb; simp [natDigitsRevAux] at hb
  | succ fuel ih =>
    intro n b hb
    by_cases hn : n = 0
    · subst hn; simp [natDigitsRevAux] at hb
    · simp only [natDigitsRevAux, if_neg hn, List.mem_cons] at hb
      rcases hb with h | h
      · have : n % 10 < 10 := Nat.mod_lt _ (by omega)
        omega
      · exact ih _ b h

theorem foldl_natDigitsRevAux :
    ∀ (fuel n a : Nat), n ≤ fuel →
      (natDigitsRevAux n fuel).reverse.foldl (fun acc b => acc * 10 + (b - 48)) a =
        a * 10 ^ (natDigitsRevAux n fuel).length + n := by
  intro fuel
  induction fuel with
  | zero =>
    intro n a h
    have : n = 0 := Nat.le_zero.mp h
    subst this
    simp [natDigitsRevAux]
  | succ fuel ih =>
    intro n a h
    by_cases hn : n = 0
    · subst hn; simp [natDigitsRevAux]
    · have hlt : n / 10 < n := Nat.div_lt_self (Nat.pos_of_ne_zero hn) (by omega)
      have hle : n / 10 ≤ fuel := by omega
      rw [show natDigitsRevAux n (fuel + 1) = (48 + n % 10) :: natDigitsRevAux (n / 10) fuel
        from by simp [natDigitsRevAux, hn]]
      rw [List.reverse_cons, List.foldl_append, ih (n / 10) a hle]
      simp only [List.foldl_cons, List.foldl_nil, List.length_cons]
      have h48 : 48 + n % 10 - 48 = n % 10 := by omega
      rw [h48, pow_succ]
      calc (a * 10 ^ (natDigitsRevAux (n / 10) fuel).length + n / 10) * 10 + n % 10
          = a * (10 ^ (natDigitsRevAux (n / 10) fuel).length * 10) + (10 * (n / 10) + n % 10) := by
            ring
        _ = a * (10 ^ (natDigitsRevAux (n / 10) fuel).length * 10) + n := by
            rw [Nat.div_add_mod]

theorem natDigits_ne_nil (n : Nat) : natDigits n ≠ [] := by
  unfold natDigits
  by_cases hn : n = 0
  · simp [hn]
  · rw [if_neg hn]
    obtain ⟨m, hm⟩ : ∃ m, n = m + 1 := ⟨n - 1, by omega⟩
    subst hm
    simp [natDigitsRevAux]

theorem mem_natDigits {n b : Nat} (hb : b ∈ natDigits n) : 48 ≤ b ∧ b ≤ 57 := by
  unfold natDigits at hb
  by_cases hn : n = 0
  · simp [hn] at hb; omega
  · rw [if_neg hn, List.mem_reverse] at hb
    exact mem_natDigitsRevAux n n b hb

theorem digitsToNat_natDigits (n : Nat) : digitsToNat (natDigits n) = n := by
  unfold natDigits digitsToNat
  by_cases hn : n = 0
  · simp [hn]
  · rw [if_neg hn, foldl_natDigitsRevAux n n 0 (le_refl n)]
    simp

theorem parseNat_natDigits_append (n : Nat) (rest : List Nat)
    (h : ∀ b, rest.head? = some b → isDigitB b = false) :
    parseNat (natDigits n ++ rest) = some (n, rest) := by
  have hall : ∀ b ∈ natDigits n, isDigitB b = true :=
    fun b hb => isDigitB_eq_true.mpr (mem_natDigits hb)
  have htd := takeWhile_append_not (natDigits n) rest hall h
  unfold parseNat
  rw [htd.1, htd.2, if_neg (natDigits_ne_nil n), digitsToNat_natDigits]

theorem intDigits_ne_nil (z : Int) : intDigits z ≠ [] := by
  unfold intDigits
  split
  · simp
  · exact natDigits_ne_nil _

theorem mem_intDigits {z : Int} {b : Nat} (hb : b ∈ intDigits z) :
    b = 45 ∨ (48 ≤ b ∧ b ≤ 57) := by
  unfold intDigits at hb
  by_cases hz : z < 0
  · rw [if_pos hz, List.mem_cons] at hb
    rcases hb with h | h
    · exact Or.inl h
    · exact Or.inr (mem_natDigits h)
  · rw [if_neg hz] at hb
    exact Or.inr (mem_natDigits hb)

theorem parseInt_cons (b : Nat) (l : List Nat) :
    parseInt (b :: l) =
      if b = 45 then (parseNat l).map (fun p => (-(p.1 : Int), p.2))
      else (parseNat (b :: l)).map (fun p => ((p.1 : Int), p.2)) := rfl

theorem parseInt_intDigits_append (z : Int) (rest : List Nat)
    (h : ∀ b, rest.head? = some b → isDigitB b = false) :
    parseInt (intDigits z ++ rest) = some (z, rest) := by
  by_cases hz : z < 0
  · rw [show intDigits z = 45 :: natDigits z.natAbs from by unfold intDigits; rw [if_pos hz]]
    rw [List.cons_append, parseInt_cons]
    rw [if_pos rfl, parseNat_natDigits_append _ _ h]
    have hz2 : -((z.natAbs : Nat) : Int) = z := by omega
    show some (-((z.natAbs : Nat) : Int), rest) = some (z, rest)
    rw [hz2]
  · rw [show intDigits z = natDigits z.natAbs from by unfold intDigits; rw [if_neg hz]]
    obtain ⟨b, t, hbt⟩ : ∃ b t, natDigits z.natAbs = b :: t := by
      cases hh : natDigits z.natAbs with
      | nil => exact absurd hh (natDigits_ne_nil _)
      | cons b t => exact ⟨b, t, rfl⟩
    have hdig : 48 ≤ b ∧ b ≤ 57 := mem_natDigits (by rw [hbt]; simp)
    rw [hbt, List.cons_append, parseInt_cons]
    rw [if_neg (by omega : ¬ b = 45), ← List.cons_append, ← hbt,
      parseNat_natDigits_append _ _ h]
    have hz2 : ((z.natAbs : Nat) : Int) = z := by omega
    show some (((z.natAbs : Nat) : Int), rest) = some (z, rest)
    rw [hz2]

/-! ## Lemmas about the hex codec -/

theorem hexDigitByte_ge_48 (d : Nat) : 48 ≤ hexDigitByte d := by
  unfold hexDigitByte
  split <;> omega

theorem mem_hexEncode_ge_48 : ∀ (s : List Nat), ∀ b ∈ hexEncode s, 48 ≤ b := by
  intro s
  induction s with
  | nil => simp [hexEncode]
  | cons x rest ih =>
    intro b hb
    simp only [hexEncode, List.mem_cons] at hb
    rcases hb with h | h | h
    · subst h; exact hexDigitByte_ge_48 _
    · subst h; exact hexDigitByte_ge_48 _
    · exact ih b h

theorem hexEncode_ne_nil {s : List Nat} (hs : s ≠ []) : hexEncode s ≠ [] := by
  cases s with
  | nil => exact absurd rfl hs
  | cons b t => simp [hexEncode]

theorem hexVal_hexDigitByte {d : Nat} (hd : d < 16) : hexVal (hexDigitByte d) = some d := by
  unfold hexVal hexDigitByte
  by_cases h10 : d < 10
  · rw [if_pos h10, if_pos (by omega)]
    simp
  · rw [if_neg h10, if_neg (by omega), if_pos (by omega)]
    simp

theorem hexDecode_hexEncode : ∀ (s : List Nat), (∀ b ∈ s, b < 256) →
    hexDecode (hexEncode s) = some s := by
  intro s
  induction s with
  | nil => simp [hexEncode, hexDecode]
  | cons b t ih =>
    intro h
    have hb : b < 256 := h b (by simp)
    have hdiv : b / 16 < 16 := by omega
    have hmod : b % 16 < 16 := by omega
    simp only [hexEncode, hexDecode, hexVal_hexDigitByte hdiv, hexVal_hexDigitByte hmod,
      ih (fun x hx => h x (by simp [hx]))]
    have : b / 16 * 16 + b % 16 = b := by omega
    rw [this]

/-! ## Lemmas about line splitting and the line codec -/

theorem mem_keyLine_ne_newline {id ts : Int} {secret : List Nat} :
    ∀ b ∈ keyLine id ts secret, b ≠ 10 := by
  intro b hb
  unfold keyLine at hb
  rcases List.mem_append.mp hb with h | h
  · rcases mem_intDigits h with h45 | hdig <;> omega
  · rcases List.mem_cons.mp h with h32 | h2
    · omega
    · rcases List.mem_append.mp h2 with h | h
      · rcases mem_intDigits h with h45 | hdig <;> omega
      · rcases List.mem_cons.mp h with h32 | hhex
        · omega
        · have := mem_hexEncode_ge_48 _ b hhex
          omega

theorem splitLines_append (l rest : List Nat) (h : ∀ b ∈ l, b ≠ 10) :
    splitLines (l ++ 10 :: rest) = l :: splitLines rest := by
  induction l with
  | nil => simp [splitLines]
  | cons b t ih =>
    have hb : b ≠ 10 := h b (by simp)
    have iht := ih (fun x hx => h x (by simp [hx]))
    simp only [List.cons_append, splitLines, if_neg hb, List.append_eq]
    rw [iht]

theorem MAX_TIME_TRAVEL_eq : MAX_TIME_TRAVEL_SECONDS = 300 := rfl

theorem EXPIRE_KEYS_eq : EXPIRE_KEYS_TIMEOUT_SECONDS = 420 := rfl

theorem NEW_KEY_eq : NEW_KEY_TIMEOUT_SECONDS = 300 := rfl

theorem DBUS_INT_MAX_eq : DBUS_INT_MAX = 2147483647 := rfl

theorem skipBlank_cons_blank {b : Nat} (l : List Nat) (hb : isBlankB b = true) :
    skipBlank (b :: l) = skipBlank l := by
  simp [skipBlank, List.dropWhile, hb]

theorem skipBlank_not_blank {b : Nat} (l : List Nat) (hb : isBlankB b = false) :
    skipBlank (b :: l) = b :: l := by
  simp [skipBlank, List.dropWhile, hb]

theorem head_cons32_not_digit (l : List Nat) :
    ∀ b, ((32 : Nat) :: l).head? = some b → isDigitB b = false := by
  intro b hb
  simp only [List.head?_cons, Option.some.injEq] at hb
  subst hb
  rfl

/-- Parsing a well-formed record line recovers the ID, timestamp and raw
hex field exactly when the timestamp passes the admission window. -/
theorem parseLine_keyLine (now id ts : Int) (secret : List Nat)
    (hid0 : 0 ≤ id) (hid1 : id ≤ DBUS_INT_MAX) (hs : secret ≠ []) :
    parseLine now (keyLine id ts secret) =
      if ts < 0 ∨ now + MAX_TIME_TRAVEL_SECONDS < ts ∨
          now - EXPIRE_KEYS_TIMEOUT_SECONDS > ts then none
      else some (id, ts, hexEncode secret) := by
  obtain ⟨b2, t2, h2⟩ : ∃ b t, intDigits ts = b :: t := by
    cases hh : intDigits ts with
    | nil => exact absurd hh (intDigits_ne_nil _)
    | cons b t => exact ⟨b, t, rfl⟩
  have hb2 : isBlankB b2 = false := by
    rcases mem_intDigits (z := ts) (b := b2) (by rw [h2]; simp) with h45 | hdig <;>
      · simp only [isBlankB, decide_eq_false_iff_not]
        omega
  obtain ⟨b3, t3, h3⟩ : ∃ b t, hexEncode secret = b :: t := by
    cases hh : hexEncode secret with
    | nil => exact absurd hh (hexEncode_ne_nil hs)
    | cons b t => exact ⟨b, t, rfl⟩
  have hb3 : isBlankB b3 = false := by
    have := mem_hexEncode_ge_48 secret b3 (by rw [h3]; simp)
    simp only [isBlankB, decide_eq_false_iff_not]
    omega
  have e1 : skipBlank (32 :: (intDigits ts ++ (32 :: hexEncode secret))) =
      intDigits ts ++ (32 :: hexEncode secret) := by
    rw [skipBlank_cons_blank _ (by decide), h2, List.cons_append,
      skipBlank_not_blank _ hb2, ← List.cons_append, ← h2]
  have e2 : skipBlank (32 :: hexEncode secret) = hexEncode secret := by
    rw [skipBlank_cons_blank _ (by decide), h3, skipBlank_not_blank _ hb3, ← h3]
  unfold parseLine keyLine
  rw [parseInt_intDigits_append id _ (head_cons32_not_digit _)]
  simp only [e1]
  rw [parseInt_intDigits_append ts _ (head_cons32_not_digit _)]
  simp only [e2]
  rw [if_neg (by rw [DBUS_INT_MAX_eq] at hid1 ⊢; omega)]
  split
  · rfl
  · rw [if_neg (hexEncode_ne_nil hs)]

theorem encodeKeys_cons (k : DBusKey) (ks : List DBusKey) :
    encodeKeys (k :: ks) =
      keyLine k.id k.creation_time k.secret ++ 10 :: encodeKeys ks := by
  simp [encodeKeys, encodeKey, List.append_assoc]

/-- The round-trip workhorse: decoding the serialization of a list of
in-window, well-formed keys reproduces the list, whatever the
allocation index. -/
theorem decodeLinesF_encodeKeys (now : Int) :
    ∀ (ks : List DBusKey) (n : Nat),
      (∀ k ∈ ks, 0 ≤ k.id ∧ k.id ≤ DBUS_INT_MAX ∧ 0 ≤ k.creation_time ∧
        k.creation_time ≤ now + MAX_TIME_TRAVEL_SECONDS ∧
        now - EXPIRE_KEYS_TIMEOUT_SECONDS ≤ k.creation_time ∧
        k.secret ≠ [] ∧ ∀ b ∈ k.secret, b < 256) →
      decodeLinesF (fun _ => true) now (splitLines (encodeKeys ks)) n = .ok ks := by
  intro ks
  induction ks with
  | nil => intro n _; simp [encodeKeys, splitLines, decodeLinesF]
  | cons k ks ih =>
    intro n h
    obtain ⟨hk0, hk1, hk2, hk3, hk4, hk5, hk6⟩ := h k (by simp)
    have hks := fun k' (hk' : k' ∈ ks) => h k' (by simp [hk'])
    have hcond : ¬(k.creation_time < 0 ∨ now + MAX_TIME_TRAVEL_SECONDS < k.creation_time ∨
        now - EXPIRE_KEYS_TIMEOUT_SECONDS > k.creation_time) := by
      rw [MAX_TIME_TRAVEL_eq] at hk3 ⊢
      rw [EXPIRE_KEYS_eq] at hk4 ⊢
      omega
    have hline := parseLine_keyLine now k.id k.creation_time k.secret hk0 hk1 hk5
    rw [if_neg hcond] at hline
    rw [encodeKeys_cons, splitLines_append _ _ (fun b hb => mem_keyLine_ne_newline b hb)]
    simp only [decodeLinesF, hline, hexDecode_hexEncode k.secret hk6, if_true]
    rw [ih (n + 1) hks]
    simp [Except.map]


/-! ## Claim C7: sign of generated key IDs -/

/-- C7 (code bug): interpreting the random draw `(0, 0, 0, 128)` — the
bytes of `0x80000000` — as a 32-bit integer gives `-2^31`, and the
32-bit negation `id = -id` of `add_new_key` leaves exactly this value
negative, violating the code's own assertion `_dbus_assert (id >= 0)`. -/
theorem c7_id_sign_bug :
    bytesToRawId 0 0 0 128 = -2147483648 ∧ drawId (0, 0, 0, 128) = -2147483648 := by
  decide

/-! ## Claim C8: stale-lock recovery -/

/-- C8 counterexample: with every retried create failing, the stale
delete failing, and a final create that would succeed,
`_dbus_keyring_lock` fails — so acquisition can fail even though the
final create would not, contradicting the claim that it fails only if
that final create fails. -/
theorem c8_stale_lock_counterexample :
    (∀ i, i < 32 → staleDeleteFailsEnv.createOk i = false) ∧
    staleDeleteFailsEnv.createOk 32 = true ∧
    dbus_keyring_lock staleDeleteFailsEnv = false := by
  decide

theorem lockLoop_false (createOk : Nat → Bool) :
    ∀ (fuel i : Nat), (∀ j, i ≤ j → j < i + fuel → createOk j = false) →
      lockLoop createOk i fuel = false := by
  intro fuel
  induction fuel with
  | zero => intro i _; rfl
  | succ fuel ih =>
    intro i h
    have h0 : createOk i = false := h i (le_refl i) (by omega)
    simp only [lockLoop, h0]
    simp only [Bool.false_eq_true, if_false]
    exact ih (i + 1) (fun j h1 h2 => h j (by omega) (by omega))

/-- C8 (amended): when all 32 retried exclusive creates fail, the
acquisition deletes the presumed-stale lock file and makes exactly one
further create attempt; it succeeds iff the delete succeeds and that
final create succeeds (a failing delete also fails the acquisition). -/
theorem c8_stale_lock_amended (env : LockEnv)
    (h : ∀ i, i < 32 → env.createOk i = false) :
    dbus_keyring_lock env = (env.deleteOk && env.createOk 32) := by
  unfold dbus_keyring_lock
  rw [lockLoop_false env.createOk 32 0 (fun j h1 h2 => h j (by omega))]
  cases hd : env.deleteOk <;> simp

/-- C8 witness: in `staleRecoveryEnv` all 32 creates fail and both the
delete and the final create succeed, so acquisition succeeds. -/
theorem c8_stale_lock_witness :
    (∀ i, i < 32 → staleRecoveryEnv.createOk i = false) ∧
    dbus_keyring_lock staleRecoveryEnv =
      (staleRecoveryEnv.deleteOk && staleRecoveryEnv.createOk 32) :=
  ⟨by decide, c8_stale_lock_amended staleRecoveryEnv (by decide)⟩

/-! ## Claim C1: codec round trip -/

/-- C1 counterexample: for the concrete key list `c1BadKeys` (a key with
an empty secret, an expired key, a key whose ID exceeds
`_DBUS_INT_MAX`, and a key with a negative ID) the encode-then-decode
round trip at time 1000 loses every key, so it does not hold for every
list of keys. -/
theorem c1_round_trip_counterexample :
    decodeLines 1000 (encodeKeys c1BadKeys) = .ok [] ∧
    decodeLines 1000 (encodeKeys c1BadKeys) ≠ .ok c1BadKeys := by
  decide

/-- C1 (amended): the codec round trip — serializing a key list and
decoding the buffer reproduces the same IDs, timestamps and secret
bytes in the same order — holds for key lists whose IDs lie in
`[0, _DBUS_INT_MAX]`, whose creation times are non-negative and inside
the admission window around the decode time, and whose secrets are
non-empty byte lists. -/
theorem c1_codec_round_trip (now : Int) (ks : List DBusKey)
    (h : ∀ k ∈ ks, 0 ≤ k.id ∧ k.id ≤ DBUS_INT_MAX ∧ 0 ≤ k.creation_time ∧
      k.creation_time ≤ now + MAX_TIME_TRAVEL_SECONDS ∧
      now - EXPIRE_KEYS_TIMEOUT_SECONDS ≤ k.creation_time ∧
      k.secret ≠ [] ∧ ∀ b ∈ k.secret, b < 256) :
    decodeLines now (encodeKeys ks) = .ok ks :=
  decodeLinesF_encodeKeys now ks 0 h

/-- C1 witness: the round trip at the concrete in-window key list
`c1GoodKeys`. -/
theorem c1_codec_round_trip_witness :
    (∀ k ∈ c1GoodKeys, 0 ≤ k.id ∧ k.id ≤ DBUS_INT_MAX ∧ 0 ≤ k.creation_time ∧
      k.creation_time ≤ 1000 + MAX_TIME_TRAVEL_SECONDS ∧
      1000 - EXPIRE_KEYS_TIMEOUT_SECONDS ≤ k.creation_time ∧
      k.secret ≠ [] ∧ ∀ b ∈ k.secret, b < 256) ∧
    decodeLines 1000 (encodeKeys c1GoodKeys) = .ok c1GoodKeys :=
  ⟨by decide, c1_codec_round_trip 1000 c1GoodKeys (by decide)⟩

/-! ## Claim C4: expiry filter boundaries -/

/-- C4: on reload at time `now`, a well-formed record line is dropped
exactly when its timestamp is negative, more than
`MAX_TIME_TRAVEL_SECONDS` ahead of `now`, or more than
`EXPIRE_KEYS_TIMEOUT_SECONDS` behind `now`; in particular a timestamp
`now - 419` survives (whenever it is a valid, non-negative timestamp,
i.e. `419 ≤ now`), while `now - 421` and `now + 301` are always
dropped. -/
theorem c4_expiry_filter (now id ts : Int) (secret : List Nat)
    (hid0 : 0 ≤ id) (hid1 : id ≤ DBUS_INT_MAX) (hs : secret ≠ []) :
    (parseLine now (keyLine id ts secret) =
      if ts < 0 ∨ now + MAX_TIME_TRAVEL_SECONDS < ts ∨
          now - EXPIRE_KEYS_TIMEOUT_SECONDS > ts then none
      else some (id, ts, hexEncode secret)) ∧
    (419 ≤ now →
      parseLine now (keyLine id (now - 419) secret) =
        some (id, now - 419, hexEncode secret)) ∧
    parseLine now (keyLine id (now - 421) secret) = none ∧
    parseLine now (keyLine id (now + 301) secret) = none := by
  refine ⟨parseLine_keyLine now id ts secret hid0 hid1 hs, ?_, ?_, ?_⟩
  · intro hnow
    rw [parseLine_keyLine now id (now - 419) secret hid0 hid1 hs,
      if_neg (by rw [MAX_TIME_TRAVEL_eq, EXPIRE_KEYS_eq]; omega)]
  · rw [parseLine_keyLine now id (now - 421) secret hid0 hid1 hs,
      if_pos (by rw [MAX_TIME_TRAVEL_eq, EXPIRE_KEYS_eq]; omega)]
  · rw [parseLine_keyLine now id (now + 301) secret hid0 hid1 hs,
      if_pos (by rw [MAX_TIME_TRAVEL_eq, EXPIRE_KEYS_eq]; omega)]

/-- C4 witness: the boundary instances at time 1000 with ID 1 and
secret `[171]`. -/
theorem c4_expiry_filter_witness :
    parseLine 1000 (keyLine 1 (1000 - 419) [171]) =
      some (1, 1000 - 419, hexEncode [171]) ∧
    parseLine 1000 (keyLine 1 (1000 - 421) [171]) = none ∧
    parseLine 1000 (keyLine 1 (1000 + 301) [171]) = none :=
  ⟨(c4_expiry_filter 1000 1 0 [171] (by decide) (by decide) (by decide)).2.1 (by decide),
   (c4_expiry_filter 1000 1 0 [171] (by decide) (by decide) (by decide)).2.2.1,
   (c4_expiry_filter 1000 1 0 [171] (by decide) (by decide) (by decide)).2.2.2⟩


/-! ## Claim C2: ID uniqueness -/

/-- C2 counterexample: reloading a file that contains two well-formed,
in-window lines with the same ID 5 commits an in-memory key list whose
IDs are `[5, 5]` — the loader does not deduplicate IDs, so the
uniqueness invariant fails for such a file. -/
theorem c2_id_uniqueness_counterexample :
    (reloadFull dupIdEnv ⟨[]⟩ false 1000).result =
      .ok [⟨5, 1000, [171]⟩, ⟨5, 1000, [171]⟩] ∧
    ((reloadFull dupIdEnv ⟨[]⟩ false 1000).ring.keys.map DBusKey.id) = [5, 5] ∧
    ¬ ((reloadFull dupIdEnv ⟨[]⟩ false 1000).ring.keys.map DBusKey.id).Nodup := by
  decide

theorem find_key_by_id_none {keys : List DBusKey} {id : Int}
    (h : find_key_by_id keys id = none) : ∀ k ∈ keys, k.id ≠ id := by
  intro k hk
  have := List.find?_eq_none.mp h k hk
  simpa using this

theorem pickId_fresh {keys : List DBusKey} :
    ∀ {ds : List (Nat × Nat × Nat × Nat)} {id : Int},
      pickId keys ds = some id → ∀ k ∈ keys, k.id ≠ id := by
  intro ds
  induction ds with
  | nil => intro id h; exact absurd h (by simp [pickId])
  | cons d ds ih =>
    intro id h
    cases hfk : find_key_by_id keys (drawId d) with
    | some k0 =>
      simp only [pickId, hfk, Option.isSome_some, if_true] at h
      exact ih h
    | none =>
      simp [pickId, hfk] at h
      subst h
      exact find_key_by_id_none hfk

theorem add_new_key_ok {g : GenEnv} {keys ks : List DBusKey}
    (h : add_new_key g keys = .ok ks) :
    ∃ id, pickId keys g.draws = some id ∧
      ks = keys ++ [⟨id, g.timestamp, g.secret⟩] := by
  unfold add_new_key at h
  cases hp : pickId keys g.draws with
  | none => rw [hp] at h; exact absurd h (by simp)
  | some id =>
    rw [hp] at h
    have h' : (if g.secretOk = false then (Except.error KErr.noMemory : Except KErr (List DBusKey))
        else if g.allocOk = false then Except.error KErr.noMemory
        else Except.ok (keys ++ [⟨id, g.timestamp, g.secret⟩])) = Except.ok ks := h
    by_cases h1 : g.secretOk = false
    · rw [if_pos h1] at h'; exact absurd h' (by simp)
    · rw [if_neg h1] at h'
      by_cases h2 : g.allocOk = false
      · rw [if_pos h2] at h'; exact absurd h' (by simp)
      · rw [if_neg h2] at h'
        cases Except.ok.inj h'
        exact ⟨id, rfl, rfl⟩

/-- C2 (amended): a reload never duplicates an ID of its own making —
whenever a reload succeeds and the keys decoded from the file carry
pairwise-distinct IDs, the committed key list (including the freshly
generated key, whose ID is redrawn until it collides with no decoded
key) carries pairwise-distinct IDs.  The loader itself, however, does
not deduplicate IDs already duplicated in the file (see the
counterexample). -/
theorem c2_id_uniqueness_amended (env : ReloadEnv) (kr : Keyring) (add_new : Bool)
    (now : Int) (ks : List DBusKey)
    (hok : (reloadFull env kr add_new now).result = .ok ks)
    (hfile : ∀ dks, loadKeys env now = .ok dks → (dks.map DBusKey.id).Nodup) :
    (ks.map DBusKey.id).Nodup := by
  revert hok
  unfold reloadFull
  split
  · intro h; exact absurd h (by simp)
  · split
    · intro h; exact absurd h (by simp)
    · split
      · intro h; exact absurd h (by simp)
      · rename_i keys heq
        split
        · split
          · intro h; exact absurd h (by simp)
          · rename_i keys2 heq2
            split
            · intro h; exact absurd h (by simp)
            · split
              · intro h; exact absurd h (by simp)
              · intro h
                have h' : Except.ok keys2 = Except.ok ks := h
                cases Except.ok.inj h'
                obtain ⟨id0, hpick, hkeys2⟩ := add_new_key_ok heq2
                have hdks := hfile keys heq
                have hfresh := pickId_fresh hpick
                rw [hkeys2, List.map_append]
                refine List.Nodup.append hdks (by simp) ?_
                intro a ha hb
                simp only [List.map_cons, List.map_nil, List.mem_singleton] at hb
                obtain ⟨k, hk, hka⟩ := List.mem_map.mp ha
                exact hfresh k hk (by rw [hka, hb])
        · intro h
          have h' : Except.ok keys = Except.ok ks := h
          cases Except.ok.inj h'
          exact hfile _ heq

/-- C2 witness: a mutating reload from an empty file in `allOkEnv`
commits exactly one key with ID 1, trivially duplicate-free. -/
theorem c2_id_uniqueness_witness :
    (reloadFull allOkEnv ⟨[]⟩ true 1000).result = .ok [⟨1, 1000, [7]⟩] ∧
    (([⟨1, 1000, [7]⟩] : List DBusKey).map DBusKey.id).Nodup :=
  ⟨by decide,
   c2_id_uniqueness_amended allOkEnv ⟨[]⟩ true 1000 [⟨1, 1000, [7]⟩] (by decide)
     (fun dks hdks => by
       have h' : (Except.ok [] : Except KErr (List DBusKey)) = .ok dks := hdks
       cases Except.ok.inj h'
       simp)⟩

/-! ## Claim C3: hex-decode failure scope -/

/-- C3 counterexample: in the file `"1 1000 zz\n2 1000 ab\n"` the first
line is well formed up to its secret field, whose hex decoding fails;
the whole decode — and hence the whole reload — aborts with an error,
even though the second line alone is perfectly decodable.  The failing
line therefore does not merely fail to produce a key: it aborts the
reload. -/
theorem c3_hex_failure_counterexample :
    decodeLines 1000 badHexFile = .error .noMemory ∧
    (reloadFull badHexEnv ⟨[]⟩ false 1000).result = .error .noMemory ∧
    (reloadFull badHexEnv ⟨[]⟩ false 1000).ring = ⟨[]⟩ ∧
    decodeLines 1000 goodLineFile = .ok [⟨2, 1000, [171]⟩] := by
  decide

/-- C3 (amended): a line whose secret field fails hex decoding aborts
the entire decode: whatever lines follow it, once the preceding lines
decode cleanly, the decode loop returns the no-memory/invalid-hex
error instead of a key list. -/
theorem c3_hex_failure_aborts (now : Int) (ls2 : List (List Nat)) (line : List Nat)
    (a b : Int) (c : List Nat)
    (h2 : parseLine now line = some (a, b, c)) (h3 : hexDecode c = none) :
    ∀ (ls1 : List (List Nat)) (n : Nat) (ks : List DBusKey),
      decodeLinesF (fun _ => true) now ls1 n = .ok ks →
      decodeLinesF (fun _ => true) now (ls1 ++ line :: ls2) n = .error .noMemory := by
  intro ls1
  induction ls1 with
  | nil => intro n ks h1; simp [decodeLinesF, h2, h3]
  | cons l ls1 ih =>
    intro n ks h1
    rw [List.cons_append]
    cases hp : parseLine now l with
    | none =>
      simp only [decodeLinesF, hp] at h1 ⊢
      exact ih n ks h1
    | some t0 =>
      obtain ⟨a0, b0, c0⟩ := t0
      simp [decodeLinesF, hp] at h1 ⊢
      cases hx : hexDecode c0 with
      | none => simp [hx] at h1
      | some s0 =>
        simp only [hx] at h1 ⊢
        cases hrec : decodeLinesF (fun _ => true) now ls1 (n + 1) with
        | error e =>
          rw [hrec] at h1
          exact absurd h1 (by simp [Except.map])
        | ok ks0 =>
          rw [ih (n + 1) ks0 hrec]
          simp [Except.map]

/-- C3 witness: a clean prefix (one well-formed line), then a line with
an unparseable hex field, makes the whole decode error out. -/
theorem c3_hex_failure_aborts_witness :
    decodeLinesF (fun _ => true) 1000
        (splitLines goodLineFile ++ [49, 32, 49, 48, 48, 48, 32, 122, 122] :: []) 0 =
      .error .noMemory :=
  c3_hex_failure_aborts 1000 [] [49, 32, 49, 48, 48, 48, 32, 122, 122]
    1 1000 [122, 122] (by decide) (by decide)
    (splitLines goodLineFile) 0 [⟨2, 1000, [171]⟩] (by decide)


/-! ## Claim C5: best-key selection -/

theorem find_recent_key_first (now : Int) :
    ∀ (pre : List DBusKey) (k : DBusKey) (post : List DBusKey),
      (∀ k' ∈ pre, k'.creation_time ≤ now - NEW_KEY_TIMEOUT_SECONDS) →
      now - NEW_KEY_TIMEOUT_SECONDS < k.creation_time →
      find_recent_key now (pre ++ k :: post) = some k := by
  intro pre
  induction pre with
  | nil => intro k post _ hk; simp [find_recent_key, hk]
  | cons p pre ih =>
    intro k post hpre hk
    have hp : ¬ (now - NEW_KEY_TIMEOUT_SECONDS < p.creation_time) := by
      have := hpre p (by simp)
      omega
    simp only [List.cons_append, find_recent_key, if_neg hp]
    exact ih k post (fun x hx => hpre x (by simp [hx])) hk

theorem find_recent_key_none (now : Int) :
    ∀ (ks : List DBusKey),
      (∀ k ∈ ks, k.creation_time ≤ now - NEW_KEY_TIMEOUT_SECONDS) →
      find_recent_key now ks = none := by
  intro ks
  induction ks with
  | nil => intro _; rfl
  | cons k ks ih =>
    intro h
    have hk : ¬ (now - NEW_KEY_TIMEOUT_SECONDS < k.creation_time) := by
      have := h k (by simp)
      omega
    simp only [find_recent_key, if_neg hk]
    exact ih (fun x hx => h x (by simp [hx]))

/-- C5: get-best-key scans the key list in order and returns the ID of
the first key whose creation time is strictly more recent than
`now - NEW_KEY_TIMEOUT_SECONDS`, without reloading, locking or saving,
whatever fresh keys follow it; and when every key is at least
`NEW_KEY_TIMEOUT_SECONDS` old (or the list is empty), a mutating
reload is performed. -/
theorem c5_best_key_selection (env : ReloadEnv) (now : Int) :
    (∀ (pre : List DBusKey) (k : DBusKey) (post : List DBusKey),
      (∀ k' ∈ pre, k'.creation_time ≤ now - NEW_KEY_TIMEOUT_SECONDS) →
      now - NEW_KEY_TIMEOUT_SECONDS < k.creation_time →
      (get_best_key env ⟨pre ++ k :: post⟩ now).result = .ok k.id ∧
      (get_best_key env ⟨pre ++ k :: post⟩ now).reloaded = false ∧
      (get_best_key env ⟨pre ++ k :: post⟩ now).locked = false ∧
      (get_best_key env ⟨pre ++ k :: post⟩ now).saved = none ∧
      (get_best_key env ⟨pre ++ k :: post⟩ now).ring = ⟨pre ++ k :: post⟩) ∧
    (∀ kr : Keyring,
      (∀ k ∈ kr.keys, k.creation_time ≤ now - NEW_KEY_TIMEOUT_SECONDS) →
      (get_best_key env kr now).reloaded = true) := by
  constructor
  · intro pre k post hpre hk
    have hf := find_recent_key_first now pre k post hpre hk
    refine ⟨?_, ?_, ?_, ?_, ?_⟩ <;> simp [get_best_key, hf]
  · intro kr hstale
    have hf := find_recent_key_none now kr.keys hstale
    simp only [get_best_key, hf]
    cases hres : (reloadFull env kr true now).result with
    | error e => rfl
    | ok ks =>
      cases hfind : find_recent_key now (reloadFull env kr true now).ring.keys with
      | none => rfl
      | some k => rfl

/-- C5 witness: in `freshSecondRing` at time 1000 the stale key (age
400) is passed over and the fresh key (ID 3, age 299) is selected with
no reload; a keyring holding only the stale key triggers a mutating
reload. -/
theorem c5_best_key_selection_witness :
    (get_best_key allOkEnv freshSecondRing 1000).result = .ok 3 ∧
    (get_best_key allOkEnv freshSecondRing 1000).reloaded = false ∧
    (get_best_key allOkEnv ⟨[⟨7, 600, [1]⟩]⟩ 1000).reloaded = true :=
  ⟨((c5_best_key_selection allOkEnv 1000).1 [⟨7, 600, [1]⟩] ⟨3, 701, [2]⟩ []
      (by decide) (by decide)).1,
   ((c5_best_key_selection allOkEnv 1000).1 [⟨7, 600, [1]⟩] ⟨3, 701, [2]⟩ []
      (by decide) (by decide)).2.1,
   (c5_best_key_selection allOkEnv 1000).2 ⟨[⟨7, 600, [1]⟩]⟩ (by decide)⟩

/-! ## Claim C6: reload atomicity on failure -/

/-- C6: whenever a reload call returns failure — from lock acquisition,
an allocation failure while decoding or generating, a hex-decode
failure, a serialization failure, or a file-save failure — the
keyring's committed key list is exactly as before the call; the new
list is installed only on success. -/
theorem c6_reload_atomic_on_failure (env : ReloadEnv) (kr : Keyring) (add_new : Bool)
    (now : Int) (e : KErr)
    (h : (reloadFull env kr add_new now).result = .error e) :
    (reloadFull env kr add_new now).ring = kr := by
  revert h
  unfold reloadFull
  split
  · intro _; rfl
  · split
    · intro _; rfl
    · split
      · intro _; rfl
      · split
        · split
          · intro _; rfl
          · split
            · intro _; rfl
            · split
              · intro _; rfl
              · intro h; exact absurd h (by simp)
        · intro h; exact absurd h (by simp)

/-- C6 witness: a mutating reload in `lockFailEnv` fails with a lock
error and leaves the keyring untouched. -/
theorem c6_reload_atomic_witness :
    (reloadFull lockFailEnv ⟨[⟨1, 5, [2]⟩]⟩ true 1000).result = .error .lockFailed ∧
    (reloadFull lockFailEnv ⟨[⟨1, 5, [2]⟩]⟩ true 1000).ring = ⟨[⟨1, 5, [2]⟩]⟩ :=
  ⟨by decide,
   c6_reload_atomic_on_failure lockFailEnv ⟨[⟨1, 5, [2]⟩]⟩ true 1000 .lockFailed (by decide)⟩

/-! ## Claim C10: lock release on every exit path -/

theorem reload_unlocked_eq_locked (env : ReloadEnv) (kr : Keyring) (add_new : Bool)
    (now : Int) :
    (reloadFull env kr add_new now).unlocked = (reloadFull env kr add_new now).locked := by
  unfold reloadFull
  split
  · rfl
  · split
    · rfl
    · split
      · rfl
      · split
        · split
          · rfl
          · split
            · rfl
            · split
              · rfl
              · rfl
        · rfl

/-- C10: on every exit path of reload — success and each failure path —
the lock file is deleted before the call returns whenever it was
created during that call. -/
theorem c10_unlock_on_every_exit (env : ReloadEnv) (kr : Keyring) (add_new : Bool)
    (now : Int) (h : (reloadFull env kr add_new now).locked = true) :
    (reloadFull env kr add_new now).unlocked = true := by
  rw [reload_unlocked_eq_locked]
  exact h

/-- C10 witness: a successful mutating reload in `allOkEnv` creates the
lock file and deletes it before returning. -/
theorem c10_unlock_witness :
    (reloadFull allOkEnv ⟨[]⟩ true 1000).locked = true ∧
    (reloadFull allOkEnv ⟨[]⟩ true 1000).unlocked = true :=
  ⟨by decide, c10_unlock_on_every_exit allOkEnv ⟨[]⟩ true 1000 (by decide)⟩

/-! ## Claim C9: read idempotence of get-best-key -/

theorem get_best_key_of_find (env : ReloadEnv) (kr : Keyring) (now : Int) (k : DBusKey)
    (h : find_recent_key now kr.keys = some k) :
    get_best_key env kr now = ⟨kr, .ok k.id, false, false, none⟩ := by
  unfold get_best_key
  rw [h]

theorem get_best_key_ok_find (env : ReloadEnv) (kr : Keyring) (now id : Int)
    (h : (get_best_key env kr now).result = .ok id) :
    ∃ k, find_recent_key now ((get_best_key env kr now).ring).keys = some k ∧
      k.id = id := by
  revert h
  unfold get_best_key
  cases h1 : find_recent_key now kr.keys with
  | some k =>
    intro h
    have h' : Except.ok k.id = Except.ok id := h
    exact ⟨k, h1, Except.ok.inj h'⟩
  | none =>
    cases hres : (reloadFull env kr true now).result with
    | error e =>
      intro h
      have h' : (Except.error e : Except KErr Int) = .ok id := h
      exact absurd h' (by simp)
    | ok ks =>
      cases hfind : find_recent_key now (reloadFull env kr true now).ring.keys with
      | none =>
        intro h
        have h' : (Except.error KErr.noRecentKey : Except KErr Int) = .ok id := h
        exact absurd h' (by simp)
      | some k =>
        intro h
        have h' : Except.ok k.id = Except.ok id := h
        exact ⟨k, hfind, Except.ok.inj h'⟩

/-- C9: if one get-best-key call succeeds with some key ID, an
immediately repeated call at the same time returns that very ID,
performs no mutating reload, creates no lock file, saves no file, and
leaves the keyring unchanged. -/
theorem c9_read_idempotent (env env2 : ReloadEnv) (kr : Keyring) (now id : Int)
    (h : (get_best_key env kr now).result = .ok id) :
    (get_best_key env2 (get_best_key env kr now).ring now).result = .ok id ∧
    (get_best_key env2 (get_best_key env kr now).ring now).reloaded = false ∧
    (get_best_key env2 (get_best_key env kr now).ring now).locked = false ∧
    (get_best_key env2 (get_best_key env kr now).ring now).saved = none ∧
    (get_best_key env2 (get_best_key env kr now).ring now).ring =
      (get_best_key env kr now).ring := by
  obtain ⟨k, hk, hkid⟩ := get_best_key_ok_find env kr now id h
  rw [get_best_key_of_find env2 _ now k hk]
  subst hkid
  exact ⟨rfl, rfl, rfl, rfl, rfl⟩

/-- C9 witness: at `freshSecondRing`, the first call returns ID 3 and
the repeated call returns ID 3 again with no reload, no lock-file
creation and no save. -/
theorem c9_read_idempotent_witness :
    (get_best_key allOkEnv freshSecondRing 1000).result = .ok 3 ∧
    ((get_best_key allOkEnv (get_best_key allOkEnv freshSecondRing 1000).ring 1000).result =
        .ok 3 ∧
      (get_best_key allOkEnv (get_best_key allOkEnv freshSecondRing 1000).ring 1000).reloaded =
        false ∧
      (get_best_key allOkEnv (get_best_key allOkEnv freshSecondRing 1000).ring 1000).locked =
        false ∧
      (get_best_key allOkEnv (get_best_key allOkEnv freshSecondRing 1000).ring 1000).saved =
        none ∧
      (get_best_key allOkEnv (get_best_key allOkEnv freshSecondRing 1000).ring 1000).ring =
        (get_best_key allOkEnv freshSecondRing 1000).ring) :=
  ⟨by decide, c9_read_idempotent allOkEnv allOkEnv freshSecondRing 1000 3 (by decide)⟩

end DBusKeyring
